import Mathlib

/-!
Verification of the core state logic of the NG-Insider-Bot repository
(src/main.py.py, the MongoDB variant that the specification follows).

The embedding below translates, function by function, the parts of the
source that the verified claims are about:

* `Database.cast_vote`        → `castVoteStep` / `castVoteDb` (and a
  read/write two-phase split `voteReadPhase` / `voteWritePhase` used to
  examine interleaved executions);
* `Database.rate_limit_ok`    → `rateLimitOk`;
* `Database.add_violation`    → modelled inline in `handlerContent`
  (the stored counter is incremented by one and the new value returned);
* `Database.set_ctx/get_ctx`  → `setCtx` / `getCtx`;
* `contains_profanity`        → `containsProfanity`;
* `handler_content`           → `handlerContent`;
* `do_submit`                 → `doSubmit` / `submitLoop`;
* `_approve`                  → `approve`;
* the deep-link seeding part of `cmd_start` → `seedDraftFromResume`;
* the `Session` / `Draft` classes → `Session` / `Draft`.

Modelling conventions: Python ints are `Int` (or `Nat` where the source
value is a count or an id), wall-clock timestamps are `Int` seconds,
Python dicts keyed by strings are association lists updated by
replace-or-append (the insertion-order semantics of a Python dict), and
outbound Telegram calls are external best-effort effects whose delivery
is not part of the durable state; where a claim depends on a message
being sent, the model records which message was produced.
-/

namespace Bot

/-- Vote direction. The only call site of `cast_vote` (`cb_vote`) passes
the string "up" or "down", so the direction argument is a two-valued type. -/
inductive Direction
  | up
  | down
deriving DecidableEq

/-- One document of the `votes` collection: up count, down count and the
per-voter map of last choices (`voters` dict, keyed by the voter id;
modelled as an association list in insertion order). The counts are `Int`
because Python ints may in principle go negative and the source clamps
with `max(0, _)`. -/
structure VoteRecord where
  up : Int
  down : Int
  voters : List (Nat × Direction)
deriving DecidableEq

/-- The default document created on first vote:
`{"_id": mid, "up": 0, "down": 0, "voters": {}}`. -/
def emptyVoteRecord : VoteRecord := { up := 0, down := 0, voters := [] }

/-- Python `voters.get(uidk)`. -/
def lookupVoter : List (Nat × Direction) → Nat → Option Direction
  | [], _ => none
  | (k, d) :: rest, uid => if uid = k then some d else lookupVoter rest uid

/-- Python `voters[uidk] = direction`: replace the existing entry, or
append a new one (a dict keeps insertion order and does not move a
re-assigned key). -/
def setVoter : List (Nat × Direction) → Nat → Direction → List (Nat × Direction)
  | [], uid, d => [(uid, d)]
  | (k, d0) :: rest, uid, d =>
      if uid = k then (k, d) :: rest else (k, d0) :: setVoter rest uid d

/-- Number of voters whose recorded last choice is `d`. -/
def countDir : List (Nat × Direction) → Direction → Nat
  | [], _ => 0
  | (_, d0) :: rest, d => (if d0 = d then 1 else 0) + countDir rest d

/-- The voter ids present in a voters map. -/
def keysOf (v : List (Nat × Direction)) : List Nat := v.map Prod.fst

/-- The pure compute part of `Database.cast_vote` (src/main.py.py lines
422-457), acting on the document read from the store: if the voter's
previous choice equals the requested direction nothing changes and
`(False, doc)` is returned; otherwise the old direction's count is
decremented (clamped at 0 exactly as `max(0, up - 1)` in the source), the
new direction's count is incremented, and the voter map is updated. -/
def castVoteStep (doc : VoteRecord) (uid : Nat) (direction : Direction) :
    Bool × VoteRecord :=
  let prev := lookupVoter doc.voters uid
  if prev = some direction then
    (false, doc)
  else
    let up1 := if prev = some Direction.up then max 0 (doc.up - 1) else doc.up
    let down1 := if prev = some Direction.down then max 0 (doc.down - 1) else doc.down
    let up2 := if direction = Direction.up then up1 + 1 else up1
    let down2 := if direction = Direction.down then down1 + 1 else down1
    (true, { up := up2, down := down2, voters := setVoter doc.voters uid direction })

/-- `Database.cast_vote` run as one sequential unit against the store for
one item: `find_one` (a missing document becomes the default), the
compute step, and — only when something changed — the upsert write. -/
def castVoteDb (store : Option VoteRecord) (uid : Nat) (direction : Direction) :
    Bool × Option VoteRecord :=
  let doc := store.getD emptyVoteRecord
  let res := castVoteStep doc uid direction
  (res.1, if res.1 then some res.2 else store)

/-- The state transformation of one sequential `cast_vote` call on the
document value (the written document, or the unchanged one when the call
was a no-op). -/
def stepRec (r : VoteRecord) (e : Nat × Direction) : VoteRecord :=
  (castVoteStep r e.1 e.2).2

/-- Consistency of a vote document: each stored count is exactly the tally
of voters whose last choice is that direction, and each voter appears at
most once in the map. -/
def wellFormed (r : VoteRecord) : Prop :=
  r.up = (countDir r.voters Direction.up : Int) ∧
  r.down = (countDir r.voters Direction.down : Int) ∧
  (keysOf r.voters).Nodup

instance (r : VoteRecord) : Decidable (wellFormed r) := by
  unfold wellFormed; infer_instance

/-- The store for one item after a sequence of `cast_vote` calls, starting
from no document. -/
def voteFold (events : List (Nat × Direction)) : Option VoteRecord :=
  events.foldl (fun st e => (castVoteDb st e.1 e.2).2) none

/-- The final vote document after a sequence of `cast_vote` calls (the
default document if nobody ever voted). -/
def finalVoteRec (events : List (Nat × Direction)) : VoteRecord :=
  (voteFold events).getD emptyVoteRecord

/-- Projection of the stored count for a direction. -/
def dirCount (r : VoteRecord) : Direction → Int
  | Direction.up => r.up
  | Direction.down => r.down

/-- The read half of `cast_vote` as it actually executes: `find_one`
followed by the local computation, producing the flag and the document
value that the later `update_one` would write. The source splits the
read and the write across two awaited store operations, so two calls for
the same item may interleave between them. -/
def voteReadPhase (store : Option VoteRecord) (uid : Nat) (direction : Direction) :
    Bool × VoteRecord :=
  castVoteStep (store.getD emptyVoteRecord) uid direction

/-- The write half of `cast_vote`: the `update_one` upsert of the
locally computed fields (skipped when nothing changed). -/
def voteWritePhase (store : Option VoteRecord) (pending : Bool × VoteRecord) :
    Option VoteRecord :=
  if pending.1 then some pending.2 else store

/-- MAX_REVIEWS_PER_HOUR from the source configuration. -/
def MAX_REVIEWS_PER_HOUR : Nat := 5

/-- MAX_PROFANITY_STRIKES from the source configuration. -/
def MAX_PROFANITY_STRIKES : Nat := 3

/-- The pruning step of `Database.rate_limit_ok`: keep only the
timestamps strictly newer than `now - 1 hour` (timestamps are modelled
as seconds, so the cutoff is `now - 3600`). -/
def pruneWindow (ts : List Int) (now : Int) : List Int :=
  ts.filter (fun t => decide (now - 3600 < t))

/-- `Database.rate_limit_ok` (src/main.py.py lines 550-574) as one
sequential unit: read the stored timestamp list, prune it to the
trailing hour, deny (without writing) when the retained count has
reached the ceiling, otherwise append `now` and persist the pruned
list. Returns the flag together with the stored list after the call. -/
def rateLimitOk (ts : List Int) (now : Int) : Bool × List Int :=
  let recent := pruneWindow ts now
  if MAX_REVIEWS_PER_HOUR ≤ recent.length then (false, ts)
  else (true, recent ++ [now])

/-- Run a sequence of admission checks for one user, threading the
stored record; returns the list of answers and the final record. -/
def runAdmits : List Int → List Int → List Bool × List Int
  | [], st => ([], st)
  | t :: rest, st =>
      let res := rateLimitOk st t
      let tail := runAdmits rest res.2
      (res.1 :: tail.1, tail.2)

/-- PROFANITY_SET from the source (the full literal set). -/
def PROFANITY_SET : List String :=
  ["idiot", "stupid", "dumb", "moron", "retard", "imbecile", "fool",
   "bastard", "asshole", "bitch", "crap", "fuck", "shit", "piss",
   "cock", "dick", "pussy", "whore", "slut", "cunt", "nigger",
   "faggot", "retarded", "loser", "scum", "trash", "garbage",
   "yenya", "leba", "ahiya", "wusha", "dedeb", "goblata",
   "shilegna", "baldeg", "gmatam", "neger", "wend",
   "gaafii", "waraana"]

/-- A word character for the regex `\w` (ASCII letters, digits and the
underscore; the profanity set is entirely romanised ASCII). -/
def isWordChar (c : Char) : Bool := c.isAlphanum || c = '_'

/-- ASCII lower-casing, as Python `str.lower()` acts on the ASCII range. -/
def lowerChar (c : Char) : Char :=
  if 'A' ≤ c ∧ c ≤ 'Z' then Char.ofNat (c.toNat + 32) else c

/-- Python `text.lower()`. -/
def pyLower (s : String) : String := String.mk (s.toList.map lowerChar)

/-- Whitespace stripped by Python `str.strip()` (the ASCII cases). -/
def isSpaceChar (c : Char) : Bool :=
  c = ' ' || c = '\t' || c = '\n' || c = '\r'

/-- Python `text.strip()`. -/
def pyStrip (s : String) : String :=
  String.mk (((s.toList.dropWhile isSpaceChar).reverse.dropWhile isSpaceChar).reverse)

/-- Splitting into the maximal runs of word characters, i.e.
`re.findall(r"\w+", _)`; the accumulator holds the current run reversed. -/
def wordsAux : List Char → List Char → List String
  | [], acc => if acc.isEmpty then [] else [String.mk acc.reverse]
  | c :: cs, acc =>
      if isWordChar c then wordsAux cs (c :: acc)
      else if acc.isEmpty then wordsAux cs []
      else String.mk acc.reverse :: wordsAux cs []

/-- All `\w+` tokens of a string. -/
def wordsOf (s : String) : List String := wordsAux s.toList []

/-- `contains_profanity` (src/main.py.py lines 126-127):
`any(w in PROFANITY_SET for w in re.findall(r"\w+", text.lower()))`. -/
def containsProfanity (text : String) : Bool :=
  (wordsOf (pyLower text)).any fun w => decide (w ∈ PROFANITY_SET)

/-- One `Draft` object (src/main.py.py lines 591-605). The uuid-derived
id is opaque and modelled as a `Nat`; the creation timestamp `ts` is
written once and never read by any code path, so it is omitted. -/
structure Draft where
  id : Nat
  stream : String
  year : String
  subject : String
  teacher : String
  rating : Nat
  content : String
  isAdditional : Bool
  parentMsgId : Option Nat
deriving DecidableEq

/-- One per-user `Session` (src/main.py.py lines 608-637). -/
structure Session where
  uid : Nat
  draft : Option Draft
  drafts : List Draft
  subjectPage : Nat
  currentSubjects : List String
deriving DecidableEq

/-- `Session.commit_draft`: move the active draft, when present, to the
end of the committed list. -/
def Session.commitDraft (s : Session) : Session :=
  match s.draft with
  | some d => { s with drafts := s.drafts ++ [d], draft := none }
  | none => s

/-- `Session.delete`: bounds-checked removal from the committed list. -/
def Session.deleteDraft (s : Session) (idx : Nat) : Session × Bool :=
  if idx < s.drafts.length then
    ({ s with drafts := s.drafts.eraseIdx idx }, true)
  else (s, false)

/-- The keys of the `contexts` collection. The source uses string keys
where pending entries carry a reserved name prefix ("pending_" followed
by the draft id) and resume entries are bare opaque tokens; the two
namespaces are modelled as the two constructors. -/
inductive CtxKey
  | pending (revId : Nat)
  | resume (tok : Nat)
deriving DecidableEq

/-- The payloads stored in the `contexts` collection: the pending dict
written by `do_submit` and the resume dict written by `_approve`. -/
inductive CtxData
  | pendingData (stream year subject teacher : String) (rating : Nat)
      (content : String) (parentMsgId : Option Nat) (isAdditional : Bool)
      (userId : Nat)
  | resumeData (stream year subject teacher : String) (parentMsgId : Nat)
deriving DecidableEq

/-- `Database.set_ctx`: upsert by key (replace the existing document or
append a new one). -/
def setCtx : List (CtxKey × CtxData) → CtxKey → CtxData → List (CtxKey × CtxData)
  | [], k, v => [(k, v)]
  | (k0, v0) :: rest, k, v =>
      if k = k0 then (k0, v) :: rest else (k0, v0) :: setCtx rest k v

/-- `Database.get_ctx`: lookup by key. -/
def getCtx : List (CtxKey × CtxData) → CtxKey → Option CtxData
  | [], _ => none
  | (k0, v0) :: rest, k => if k = k0 then some v0 else getCtx rest k

/-- The pending dict `do_submit` stores under `pending_<draft.id>`. -/
def pendingPayloadOf (d : Draft) (uid : Nat) : CtxData :=
  CtxData.pendingData d.stream d.year d.subject d.teacher d.rating d.content
    d.parentMsgId d.isAdditional uid

/-- The conversation states of the handler table, plus the terminal
`ConversationHandler.END`. -/
inductive ConvState
  | stStream
  | stYear
  | stSubject
  | stTeacher
  | stRating
  | stContent
  | stBatch
  | stManage
  | ended
deriving DecidableEq

/-- The loop body of `do_submit` over the committed drafts: one
admission check per draft; on admission the pending context entry is
written and the draft is sent to the moderator (delivery to the
moderator chat is an external best-effort send, modelled as succeeding,
so `submitted` counts the admitted drafts); on denial the user is sent
the rate-limit notice carrying the number already submitted and the
loop stops. Returns (context store, rate-limit record, submitted count,
number of admission checks made, the reported success count when the
limit was hit). -/
def submitLoop (uid : Nat) (now : Int) :
    List Draft → List Int → List (CtxKey × CtxData) → Nat → Nat →
    List (CtxKey × CtxData) × List Int × Nat × Nat × Option Nat
  | [], rl, ctxs, submitted, checks => (ctxs, rl, submitted, checks, none)
  | d :: rest, rl, ctxs, submitted, checks =>
      let res := rateLimitOk rl now
      if res.1 then
        let ctxs1 := setCtx ctxs (CtxKey.pending d.id) (pendingPayloadOf d uid)
        submitLoop uid now rest res.2 ctxs1 (submitted + 1) (checks + 1)
      else (ctxs, rl, submitted, checks + 1, some submitted)

/-- The outcome of `do_submit`: the stores after the call, the counters,
the optional rate-limit report, the session slot for the user afterwards
and the returned conversation state. -/
structure SubmitOutcome where
  ctxs : List (CtxKey × CtxData)
  rl : List Int
  submitted : Nat
  checks : Nat
  limitReport : Option Nat
  sessionAfter : Option Session
  state : ConvState
deriving DecidableEq

/-- `do_submit` (src/main.py.py lines 1123-1215): with no committed
drafts it only replies and returns END (the session entry is not
popped on that early return); otherwise it runs the per-draft loop and
then unconditionally pops the session. The whole batch executes at one
instant, so every admission check reads the same clock value `now`. -/
def doSubmit (uid : Nat) (now : Int) (sess : Session) (rl : List Int)
    (ctxs : List (CtxKey × CtxData)) : SubmitOutcome :=
  if sess.drafts = [] then
    { ctxs := ctxs, rl := rl, submitted := 0, checks := 0, limitReport := none,
      sessionAfter := some sess, state := ConvState.ended }
  else
    let out := submitLoop uid now sess.drafts rl ctxs 0 0
    { ctxs := out.1, rl := out.2.1, submitted := out.2.2.1, checks := out.2.2.2.1,
      limitReport := out.2.2.2.2, sessionAfter := none, state := ConvState.ended }

/-- The reply sent back to the user by `handler_content` (identified by
which message template the branch uses). -/
inductive Reply
  | tooShort
  | profanityWarn (strikes : Nat)
  | profanityBanned
  | draftSaved (ndrafts : Nat)
  | autoSubmitted
deriving DecidableEq

/-- Everything observable after one `handler_content` event: the
returned conversation state, the session slot for the user, the stored
violation count, the banned set, the rate-limit record, the context
store and the reply sent. -/
structure ContentResult where
  state : ConvState
  sessionAfter : Option Session
  violations : Nat
  banned : List Nat
  rl : List Int
  ctxs : List (CtxKey × CtxData)
  reply : Reply
deriving DecidableEq

/-- `handler_content` (src/main.py.py lines 982-1025): strip the text;
reject when shorter than 30 characters; otherwise run the content
filter — a hit increments the stored violation counter
(`Database.add_violation` is an atomic increment returning the new
count) and either bans the user, drops the session and ends, or
re-enters the state with the strike notice; otherwise store the body in
the active draft, commit it, and either auto-submit (deep-link
follow-up) or show the batch menu. `viol` is the stored violation count
for the user before the event. The accepting branch reads
`sess.draft.content`, which raises on a missing active draft; that
(unreachable in state ST_CONTENT) case is `none`. -/
def handlerContent (text : String) (uid : Nat) (sess : Session) (viol : Nat)
    (bannedSet : List Nat) (rl : List Int) (ctxs : List (CtxKey × CtxData))
    (now : Int) : Option ContentResult :=
  let t := pyStrip text
  if t.length < 30 then
    some { state := ConvState.stContent, sessionAfter := some sess,
           violations := viol, banned := bannedSet, rl := rl, ctxs := ctxs,
           reply := Reply.tooShort }
  else if containsProfanity t then
    let strikes := viol + 1
    if MAX_PROFANITY_STRIKES ≤ strikes then
      some { state := ConvState.ended, sessionAfter := none,
             violations := strikes, banned := uid :: bannedSet, rl := rl,
             ctxs := ctxs, reply := Reply.profanityBanned }
    else
      some { state := ConvState.stContent, sessionAfter := some sess,
             violations := strikes, banned := bannedSet, rl := rl, ctxs := ctxs,
             reply := Reply.profanityWarn strikes }
  else
    match sess.draft with
    | none => none
    | some d =>
      let sess2 := Session.commitDraft { sess with draft := some { d with content := t } }
      match sess2.drafts.getLast? with
      | some dl =>
        if dl.isAdditional then
          let out := doSubmit uid now sess2 rl ctxs
          some { state := out.state, sessionAfter := out.sessionAfter,
                 violations := viol, banned := bannedSet, rl := out.rl,
                 ctxs := out.ctxs, reply := Reply.autoSubmitted }
        else
          some { state := ConvState.stBatch, sessionAfter := some sess2,
                 violations := viol, banned := bannedSet, rl := rl, ctxs := ctxs,
                 reply := Reply.draftSaved sess2.drafts.length }
      | none =>
        some { state := ConvState.stBatch, sessionAfter := some sess2,
               violations := viol, banned := bannedSet, rl := rl, ctxs := ctxs,
               reply := Reply.draftSaved sess2.drafts.length }

/-- One approved review persisted by `Database.add_review` (the
wall-clock timestamp of the insert is carried as `ts`). -/
structure Review where
  teacher : String
  subject : String
  stream : String
  year : String
  rating : Nat
  content : String
  ts : Int
  msgId : Nat
deriving DecidableEq

/-- The durable outcome of `_approve`: the context store (now holding
the fresh resume entry), the appended review list, the approved-member
set, the `reply_to_message_id` used for the channel post, the published
message id and the freshly issued resume token. -/
structure ApproveOutcome where
  ctxs : List (CtxKey × CtxData)
  reviews : List Review
  members : List Nat
  replyTo : Option Nat
  publishedMsgId : Nat
  resumeToken : Nat
deriving DecidableEq

/-- `_approve` (src/main.py.py lines 1275-1362). `sentMsgId` is the id
the channel assigns to the new post and `newTok` the freshly generated
uuid token; both are opaque inputs chosen outside the function. A
missing pending entry is the early "pending data not found" return;
a pending key can only hold a pending payload (only `do_submit` writes
such keys — a malformed document would raise in the source), so that
case is also `none`. The thread linkage follows the source exactly:
`next_parent = parent_msg_id if parent_msg_id else sent.message_id`,
where Python truthiness makes both a missing parent and a parent id of
0 fall back to the new message id. -/
def approve (ctxs : List (CtxKey × CtxData)) (reviews : List Review)
    (members : List Nat) (userId : Nat) (revId : Nat) (sentMsgId : Nat)
    (newTok : Nat) (now : Int) : Option ApproveOutcome :=
  match getCtx ctxs (CtxKey.pending revId) with
  | none => none
  | some (CtxData.resumeData _ _ _ _ _) => none
  | some (CtxData.pendingData stream year subject teacher rating content
            parentMsgId _ _) =>
    let nextParent :=
      match parentMsgId with
      | some p => if p = 0 then sentMsgId else p
      | none => sentMsgId
    let ctxs1 := setCtx ctxs (CtxKey.resume newTok)
      (CtxData.resumeData stream year subject teacher nextParent)
    let rev : Review :=
      { teacher := teacher, subject := subject, stream := stream, year := year,
        rating := rating, content := content, ts := now, msgId := sentMsgId }
    some { ctxs := ctxs1,
           reviews := reviews ++ [rev],
           members := members ++ [userId],
           replyTo := parentMsgId,
           publishedMsgId := sentMsgId,
           resumeToken := newTok }

/-- The deep-link seeding part of `cmd_start` (src/main.py.py lines
789-814): a fresh draft is filled from the context entry with
`data.get(...)` (string fields default to the empty string, the parent
id to the stored value) and marked `is_additional`. `newId` is the
fresh uuid of the new draft. -/
def seedDraftFromResume (newId : Nat) : CtxData → Draft
  | CtxData.resumeData stream year subject teacher parent =>
      { id := newId, stream := stream, year := year, subject := subject,
        teacher := teacher, rating := 0, content := "", isAdditional := true,
        parentMsgId := some parent }
  | CtxData.pendingData stream year subject teacher _ _ parent _ _ =>
      { id := newId, stream := stream, year := year, subject := subject,
        teacher := teacher, rating := 0, content := "", isAdditional := true,
        parentMsgId := parent }

/-- One full follow-up cycle through the real definitions: resume with a
token whose entry records parent `a`, seed the draft, submit it (the
pending entry `do_submit` writes), approve it, and read back the parent
recorded in the new resume entry. -/
def followupParentStep (a : Nat) (s y sub t : String) (nid uid sent tok : Nat)
    (now : Int) : Option Nat :=
  let d := seedDraftFromResume nid (CtxData.resumeData s y sub t a)
  let ctxs := setCtx [] (CtxKey.pending d.id) (pendingPayloadOf d uid)
  match approve ctxs [] [] uid d.id sent tok now with
  | some out =>
      match getCtx out.ctxs (CtxKey.resume tok) with
      | some (CtxData.resumeData _ _ _ _ p) => some p
      | _ => none
  | none => none

/-! Concrete data used by the witness theorems. -/

/-- A reachable vote record with one recorded up-vote. -/
def voteWitnessRecord : VoteRecord :=
  { up := 1, down := 0, voters := [(7, Direction.up)] }

/-- A committed draft used in witnesses. -/
def wDraft0 : Draft :=
  { id := 10, stream := "Natural", year := "Year 1", subject := "Math",
    teacher := "Dr. Abebe Kebede", rating := 4, content := "first body",
    isAdditional := false, parentMsgId := none }

/-- A second committed draft used in witnesses. -/
def wDraft1 : Draft :=
  { wDraft0 with id := 11, content := "second body" }

/-- A third committed draft used in witnesses. -/
def wDraft2 : Draft :=
  { wDraft0 with id := 12, content := "third body" }

/-- A session holding three committed drafts. -/
def wSession : Session :=
  { uid := 1, draft := some wDraft0, drafts := [wDraft0, wDraft1, wDraft2],
    subjectPage := 0, currentSubjects := [] }

/-- A body text of at least 30 characters containing forbidden tokens,
used in witnesses. -/
def wBody : String := "this teacher is stupid and very dumb every single day"

/-- A context store holding one pending entry that carries a thread
parent, used by the approval witness. -/
def wCtxs : List (CtxKey × CtxData) :=
  [(CtxKey.pending 5,
    CtxData.pendingData "Natural" "Year 1" "Math" "Dr. Abebe Kebede" 4
      "a detailed enough body" (some 77) true 1)]

/-! Lemmas about the voters map. -/

lemma lookupVoter_eq_some_mem {v : List (Nat × Direction)} {uid : Nat}
    {d : Direction} (h : lookupVoter v uid = some d) : uid ∈ keysOf v := by
  induction v with
  | nil => simp [lookupVoter] at h
  | cons hd tl ih =>
    obtain ⟨k, e⟩ := hd
    by_cases hk : uid = k
    · subst hk; simp [keysOf]
    · simp only [lookupVoter, if_neg hk] at h
      simpa [keysOf, hk] using ih h

lemma lookupVoter_eq_none_not_mem {v : List (Nat × Direction)} {uid : Nat}
    (h : lookupVoter v uid = none) : uid ∉ keysOf v := by
  induction v with
  | nil => simp [keysOf]
  | cons hd tl ih =>
    obtain ⟨k, e⟩ := hd
    by_cases hk : uid = k
    · subst hk; simp [lookupVoter] at h
    · simp only [lookupVoter, if_neg hk] at h
      simpa [keysOf, hk] using ih h

lemma setVoter_of_none {v : List (Nat × Direction)} {uid : Nat}
    (h : lookupVoter v uid = none) (d : Direction) :
    setVoter v uid d = v ++ [(uid, d)] := by
  induction v with
  | nil => rfl
  | cons hd tl ih =>
    obtain ⟨k, e⟩ := hd
    by_cases hk : uid = k
    · subst hk; simp [lookupVoter] at h
    · simp only [lookupVoter, if_neg hk] at h
      simp [setVoter, hk, ih h]

lemma countDir_append (a b : List (Nat × Direction)) (d : Direction) :
    countDir (a ++ b) d = countDir a d + countDir b d := by
  induction a with
  | nil => simp [countDir]
  | cons hd tl ih => obtain ⟨k, e⟩ := hd; simp [countDir, ih]; omega

lemma keysOf_append (a b : List (Nat × Direction)) :
    keysOf (a ++ b) = keysOf a ++ keysOf b := by
  simp [keysOf]

lemma countDir_pos_of_lookup {v : List (Nat × Direction)} {uid : Nat}
    {d0 : Direction} (h : lookupVoter v uid = some d0) : 1 ≤ countDir v d0 := by
  induction v with
  | nil => simp [lookupVoter] at h
  | cons hd tl ih =>
    obtain ⟨k, e⟩ := hd
    by_cases hk : uid = k
    · rw [lookupVoter, if_pos hk] at h
      obtain rfl : e = d0 := by injection h
      simp [countDir]
    · rw [lookupVoter, if_neg hk] at h
      have := ih h
      simp only [countDir]
      omega

lemma setVoter_replace {v : List (Nat × Direction)} {uid : Nat} {d0 d : Direction}
    (h : lookupVoter v uid = some d0) (hne : d0 ≠ d) :
    countDir (setVoter v uid d) d = countDir v d + 1 ∧
    countDir (setVoter v uid d) d0 + 1 = countDir v d0 ∧
    keysOf (setVoter v uid d) = keysOf v := by
  induction v with
  | nil => simp [lookupVoter] at h
  | cons hd tl ih =>
    obtain ⟨k, e⟩ := hd
    by_cases hk : uid = k
    · rw [lookupVoter, if_pos hk] at h
      obtain rfl : e = d0 := by injection h
      refine ⟨?_, ?_, ?_⟩ <;>
        simp [setVoter, countDir, keysOf, hk, hne, Ne.symm hne] <;> omega
    · rw [lookupVoter, if_neg hk] at h
      obtain ⟨i1, i2, i3⟩ := ih h
      simp only [keysOf] at i3
      refine ⟨?_, ?_, ?_⟩ <;>
        simp [setVoter, countDir, keysOf, hk, i1, i3] <;> omega

lemma countDir_total (v : List (Nat × Direction)) :
    countDir v Direction.up + countDir v Direction.down = v.length := by
  induction v with
  | nil => simp [countDir]
  | cons hd tl ih =>
    obtain ⟨k, e⟩ := hd
    cases e <;> simp [countDir, ih] <;> omega

lemma castVoteStep_false (doc : VoteRecord) (uid : Nat) (d : Direction) :
    (castVoteStep doc uid d).1 = false → (castVoteStep doc uid d).2 = doc := by
  by_cases hc : lookupVoter doc.voters uid = some d
  · simp [castVoteStep, hc]
  · simp [castVoteStep, hc]

lemma castVoteStep_none (r : VoteRecord) (uid : Nat) (d : Direction)
    (hprev : lookupVoter r.voters uid = none) :
    castVoteStep r uid d =
      (true, { up := if d = Direction.up then r.up + 1 else r.up,
               down := if d = Direction.down then r.down + 1 else r.down,
               voters := r.voters ++ [(uid, d)] }) := by
  rw [castVoteStep.eq_def]
  simp only [hprev]
  rw [setVoter_of_none hprev]
  cases d <;> simp

lemma castVoteStep_same (r : VoteRecord) (uid : Nat) (d : Direction)
    (hprev : lookupVoter r.voters uid = some d) :
    castVoteStep r uid d = (false, r) := by
  simp [castVoteStep, hprev]

lemma castVoteStep_up_to_down (r : VoteRecord) (uid : Nat)
    (hprev : lookupVoter r.voters uid = some Direction.up) :
    castVoteStep r uid Direction.down =
      (true, { up := max 0 (r.up - 1), down := r.down + 1,
               voters := setVoter r.voters uid Direction.down }) := by
  rw [castVoteStep.eq_def]
  simp only [hprev]
  simp

lemma castVoteStep_down_to_up (r : VoteRecord) (uid : Nat)
    (hprev : lookupVoter r.voters uid = some Direction.down) :
    castVoteStep r uid Direction.up =
      (true, { up := r.up + 1, down := max 0 (r.down - 1),
               voters := setVoter r.voters uid Direction.up }) := by
  rw [castVoteStep.eq_def]
  simp only [hprev]
  simp

lemma wellFormed_step {r : VoteRecord} (h : wellFormed r) (uid : Nat)
    (d : Direction) :
    wellFormed (stepRec r (uid, d)) ∧
    (∀ x, x ∈ keysOf (stepRec r (uid, d)).voters ↔
      x ∈ keysOf r.voters ∨ x = uid) := by
  obtain ⟨hup, hdown, hnd⟩ := h
  cases hprev : lookupVoter r.voters uid with
  | none =>
    have hstep : stepRec r (uid, d) =
        { up := if d = Direction.up then r.up + 1 else r.up,
          down := if d = Direction.down then r.down + 1 else r.down,
          voters := r.voters ++ [(uid, d)] } := by
      rw [stepRec, castVoteStep_none r uid d hprev]
    rw [hstep]
    have hnotmem := lookupVoter_eq_none_not_mem hprev
    refine ⟨⟨?_, ?_, ?_⟩, ?_⟩
    · cases d <;> simp [countDir_append, countDir, hup]
    · cases d <;> simp [countDir_append, countDir, hdown]
    · rw [keysOf_append]
      simp only [List.nodup_append]
      refine ⟨hnd, by simp [keysOf], ?_⟩
      intro a ha hb
      simp [keysOf] at hb
      subst hb; exact hnotmem ha
    · intro x
      rw [keysOf_append]
      simp [keysOf]
  | some d0 =>
    have hmem := lookupVoter_eq_some_mem hprev
    by_cases hd : d0 = d
    · subst hd
      have hstep : stepRec r (uid, d0) = r := by
        rw [stepRec, castVoteStep_same r uid d0 hprev]
      rw [hstep]
      refine ⟨⟨hup, hdown, hnd⟩, fun x => ⟨Or.inl, ?_⟩⟩
      rintro (hx | rfl)
      · exact hx
      · exact hmem
    · obtain ⟨c1, c2, ckeys⟩ := setVoter_replace hprev hd
      have hpos := countDir_pos_of_lookup hprev
      have hmemiff : ∀ x, x ∈ keysOf (setVoter r.voters uid d) ↔
          x ∈ keysOf r.voters ∨ x = uid := by
        intro x
        rw [ckeys]
        refine ⟨Or.inl, ?_⟩
        rintro (hx | rfl)
        · exact hx
        · exact hmem
      cases d with
      | up =>
        have hd0 : d0 = Direction.down := by cases d0 <;> simp_all
        subst hd0
        have hstep : stepRec r (uid, Direction.up) =
            { up := r.up + 1, down := max 0 (r.down - 1),
              voters := setVoter r.voters uid Direction.up } := by
          rw [stepRec, castVoteStep_down_to_up r uid hprev]
        rw [hstep]
        refine ⟨⟨?_, ?_, ?_⟩, hmemiff⟩
        · rw [hup]; push_cast [c1]; ring
        · rw [max_eq_right (by omega), hdown]
          push_cast
          omega
        · exact ckeys ▸ hnd
      | down =>
        have hd0 : d0 = Direction.up := by cases d0 <;> simp_all
        subst hd0
        have hstep : stepRec r (uid, Direction.down) =
            { up := max 0 (r.up - 1), down := r.down + 1,
              voters := setVoter r.voters uid Direction.down } := by
          rw [stepRec, castVoteStep_up_to_down r uid hprev]
        rw [hstep]
        refine ⟨⟨?_, ?_, ?_⟩, hmemiff⟩
        · rw [max_eq_right (by omega), hup]
          push_cast
          omega
        · rw [hdown]; push_cast [c1]; ring
        · exact ckeys ▸ hnd

lemma wellFormed_fold (events : List (Nat × Direction)) :
    ∀ r, wellFormed r →
      wellFormed (events.foldl stepRec r) ∧
      (∀ x, x ∈ keysOf (events.foldl stepRec r).voters ↔
        x ∈ keysOf r.voters ∨ x ∈ events.map Prod.fst) := by
  induction events with
  | nil => intro r hr; simpa using hr
  | cons e rest ih =>
    intro r hr
    obtain ⟨uid, d⟩ := e
    obtain ⟨h1, h2⟩ := wellFormed_step hr uid d
    obtain ⟨g1, g2⟩ := ih (stepRec r (uid, d)) h1
    refine ⟨g1, fun x => ?_⟩
    rw [List.foldl_cons] at *
    rw [g2 x]
    simp only [List.map_cons, List.mem_cons]
    rw [h2 x]
    tauto

lemma getD_castVoteDb (st : Option VoteRecord) (uid : Nat) (d : Direction) :
    ((castVoteDb st uid d).2).getD emptyVoteRecord =
      stepRec (st.getD emptyVoteRecord) (uid, d) := by
  simp only [castVoteDb, stepRec]
  by_cases h : (castVoteStep (st.getD emptyVoteRecord) uid d).1
  · simp [h]
  · rw [castVoteStep_false _ _ _ (by simpa using h)]
    simp [h]

lemma voteFold_getD (events : List (Nat × Direction)) :
    ∀ st : Option VoteRecord,
      ((events.foldl (fun s e => (castVoteDb s e.1 e.2).2) st).getD emptyVoteRecord) =
        events.foldl stepRec (st.getD emptyVoteRecord) := by
  induction events with
  | nil => intro st; rfl
  | cons e rest ih =>
    intro st
    rw [List.foldl_cons, List.foldl_cons, ih, getD_castVoteDb]

lemma wellFormed_empty : wellFormed emptyVoteRecord := by
  refine ⟨rfl, rfl, ?_⟩; simp [emptyVoteRecord, keysOf]

/-- C1: over any sequence of `cast_vote` calls on one published item,
starting from no vote record, the final up+down total equals the number
of distinct voters that ever voted, both counts are non-negative, and
each count is exactly the tally of the voters whose current choice is
that direction with each voter appearing once — so every voter is
reflected in at most one of the two counts at a time. -/
theorem vote_ledger_invariant (events : List (Nat × Direction)) :
    (finalVoteRec events).up + (finalVoteRec events).down =
      ((events.map Prod.fst).dedup.length : Int) ∧
    0 ≤ (finalVoteRec events).up ∧ 0 ≤ (finalVoteRec events).down ∧
    (finalVoteRec events).up =
      (countDir (finalVoteRec events).voters Direction.up : Int) ∧
    (finalVoteRec events).down =
      (countDir (finalVoteRec events).voters Direction.down : Int) ∧
    (keysOf (finalVoteRec events).voters).Nodup := by
  have hbridge : finalVoteRec events = events.foldl stepRec emptyVoteRecord := by
    unfold finalVoteRec voteFold
    simpa using voteFold_getD events none
  obtain ⟨⟨hup, hdown, hnd⟩, hmem⟩ :=
    wellFormed_fold events emptyVoteRecord wellFormed_empty
  rw [hbridge]
  set r := events.foldl stepRec emptyVoteRecord with hr
  have hmem2 : ∀ x, x ∈ keysOf r.voters ↔ x ∈ events.map Prod.fst := by
    intro x
    rw [hmem x]
    simp [emptyVoteRecord, keysOf]
  have hperm : List.Perm (keysOf r.voters) ((events.map Prod.fst).dedup) := by
    rw [List.perm_ext_iff_of_nodup hnd (List.nodup_dedup _)]
    intro a
    rw [List.mem_dedup]
    exact hmem2 a
  have hlen : (keysOf r.voters).length = (events.map Prod.fst).dedup.length :=
    hperm.length_eq
  have hklen : (keysOf r.voters).length = r.voters.length := by
    simp [keysOf]
  have htot := countDir_total r.voters
  refine ⟨?_, ?_, ?_, hup, hdown, hnd⟩
  · rw [hup, hdown, ← hlen, hklen]
    omega
  · rw [hup]; positivity
  · rw [hdown]; positivity

/-- C2: for a consistent vote record, re-casting the voter's recorded
direction returns changed=false and leaves the document untouched, while
casting the opposite direction returns changed=true, decrements the old
direction count by one and increments the new direction count by one. -/
theorem cast_vote_idempotent_and_switch (r : VoteRecord) (uid : Nat)
    (d : Direction) (hwf : wellFormed r) :
    (lookupVoter r.voters uid = some d → castVoteStep r uid d = (false, r)) ∧
    (∀ d0, lookupVoter r.voters uid = some d0 → d0 ≠ d →
      (castVoteStep r uid d).1 = true ∧
      dirCount (castVoteStep r uid d).2 d = dirCount r d + 1 ∧
      dirCount (castVoteStep r uid d).2 d0 = dirCount r d0 - 1) := by
  obtain ⟨hup, hdown, _⟩ := hwf
  constructor
  · intro hprev
    exact castVoteStep_same r uid d hprev
  · intro d0 hprev hne
    have hpos := countDir_pos_of_lookup hprev
    cases d with
    | up =>
      have hd0 : d0 = Direction.down := by cases d0 <;> simp_all
      subst hd0
      rw [castVoteStep_down_to_up r uid hprev]
      refine ⟨rfl, rfl, ?_⟩
      simp only [dirCount]
      rw [max_eq_right (by omega)]
    | down =>
      have hd0 : d0 = Direction.up := by cases d0 <;> simp_all
      subst hd0
      rw [castVoteStep_up_to_down r uid hprev]
      refine ⟨rfl, rfl, ?_⟩
      simp only [dirCount]
      rw [max_eq_right (by omega)]

/-- Witness for C2 at a concrete reachable record. -/
theorem cast_vote_idempotent_and_switch_witness :
    wellFormed voteWitnessRecord ∧
    ((lookupVoter voteWitnessRecord.voters 7 = some Direction.up →
        castVoteStep voteWitnessRecord 7 Direction.up = (false, voteWitnessRecord)) ∧
      (∀ d0, lookupVoter voteWitnessRecord.voters 7 = some d0 →
        d0 ≠ Direction.up →
        (castVoteStep voteWitnessRecord 7 Direction.up).1 = true ∧
        dirCount (castVoteStep voteWitnessRecord 7 Direction.up).2 Direction.up =
          dirCount voteWitnessRecord Direction.up + 1 ∧
        dirCount (castVoteStep voteWitnessRecord 7 Direction.up).2 d0 =
          dirCount voteWitnessRecord d0 - 1)) :=
  ⟨by decide, cast_vote_idempotent_and_switch voteWitnessRecord 7 Direction.up (by decide)⟩

/-- C3: `cast_vote` is not the single atomic read-modify-write its own
docstring and the specification describe: the document is read with
`find_one` and written back with a separate `update_one`. When two
different users concurrently vote up on the same fresh item and both
reads happen before either write, the second write overwrites the
first and the final up count is 1, not 2 — a lost update. -/
theorem cast_vote_read_write_lost_update :
    (voteWritePhase
        (voteWritePhase (none : Option VoteRecord) (voteReadPhase none 1 Direction.up))
        (voteReadPhase none 2 Direction.up)).getD emptyVoteRecord
      = { up := 1, down := 0, voters := [(2, Direction.up)] } := by
  decide

/-! Lemmas about the rate limiter. -/

lemma pruneWindow_of_window {st : List Int} {now : Int}
    (h : ∀ s ∈ st, now - s < 3600) : pruneWindow st now = st := by
  unfold pruneWindow
  rw [List.filter_eq_self]
  intro a ha
  have := h a ha
  simp only [decide_eq_true_eq]
  omega

lemma count_bool (l : List Bool) : l.count true + l.count false = l.length := by
  induction l with
  | nil => simp
  | cons b tl ih => cases b <;> simp [List.count_cons, ih] <;> omega

lemma runAdmits_length (times : List Int) :
    ∀ st, (runAdmits times st).1.length = times.length := by
  induction times with
  | nil => intro st; rfl
  | cons t rest ih => intro st; simp [runAdmits, ih]

lemma rateLimitOk_denied (st : List Int) (t : Int)
    (h : MAX_REVIEWS_PER_HOUR ≤ (pruneWindow st t).length) :
    rateLimitOk st t = (false, st) := by
  simp only [rateLimitOk]
  rw [if_pos h]

lemma rateLimitOk_admitted (st : List Int) (t : Int)
    (h : ¬ MAX_REVIEWS_PER_HOUR ≤ (pruneWindow st t).length) :
    rateLimitOk st t = (true, pruneWindow st t ++ [t]) := by
  simp only [rateLimitOk]
  rw [if_neg h]

lemma runAdmits_count (times : List Int) :
    ∀ st : List Int,
      (∀ a ∈ times, ∀ b ∈ times, a - b < 3600) →
      (∀ a ∈ times, ∀ s ∈ st, a - s < 3600) →
      (runAdmits times st).1.count true =
        min times.length (MAX_REVIEWS_PER_HOUR - st.length) := by
  induction times with
  | nil => intro st _ _; simp [runAdmits]
  | cons t rest ih =>
    intro st hwin hst
    have hprune : pruneWindow st t = st :=
      pruneWindow_of_window (fun s hs => hst t (by simp) s hs)
    have hwin1 : ∀ a ∈ rest, ∀ b ∈ rest, a - b < 3600 := by
      intro a ha b hb
      exact hwin a (by simp [ha]) b (by simp [hb])
    by_cases hlen : MAX_REVIEWS_PER_HOUR ≤ st.length
    · have hdeny := rateLimitOk_denied st t (by rw [hprune]; exact hlen)
      have hst1 : ∀ a ∈ rest, ∀ s ∈ st, a - s < 3600 := by
        intro a ha s hs
        exact hst a (by simp [ha]) s hs
      have hrec := ih st hwin1 hst1
      have h0 : MAX_REVIEWS_PER_HOUR - st.length = 0 := by omega
      simp [runAdmits, hdeny, hrec, h0]
    · have hadmit := rateLimitOk_admitted st t (by rw [hprune]; exact hlen)
      rw [hprune] at hadmit
      have hst1 : ∀ a ∈ rest, ∀ s ∈ st ++ [t], a - s < 3600 := by
        intro a ha s hs
        rcases List.mem_append.mp hs with hs | hs
        · exact hst a (by simp [ha]) s hs
        · rw [List.mem_singleton.mp hs]
          exact hwin a (by simp [ha]) t (by simp)
      have hrec := ih (st ++ [t]) hwin1 hst1
      have harith : min (rest.length + 1) (MAX_REVIEWS_PER_HOUR - st.length) =
          min rest.length (MAX_REVIEWS_PER_HOUR - (st.length + 1)) + 1 := by
        have h1 : MAX_REVIEWS_PER_HOUR - st.length =
            (MAX_REVIEWS_PER_HOUR - (st.length + 1)) + 1 := by omega
        rw [h1, Nat.succ_min_succ]
      simp [runAdmits, hadmit, hrec, harith]

/-- C4: calling the admission check 2x the ceiling (ceiling = 5) times
for one user, all within one trailing one-hour window and starting from
an empty record, admits exactly the ceiling many calls and denies the
rest; moreover any denied call leaves the stored record unchanged and
any admitted call stores the retained (pruned) list with the current
timestamp appended. -/
theorem rate_limiter_admits_exactly_ceiling (times : List Int)
    (hlen : times.length = 2 * MAX_REVIEWS_PER_HOUR)
    (hwin : ∀ a ∈ times, ∀ b ∈ times, a - b < 3600) :
    ((runAdmits times []).1.count true = MAX_REVIEWS_PER_HOUR ∧
      (runAdmits times []).1.count false = MAX_REVIEWS_PER_HOUR) ∧
    (∀ st : List Int, ∀ t : Int, (rateLimitOk st t).1 = false →
      (rateLimitOk st t).2 = st) ∧
    (∀ st : List Int, ∀ t : Int, (rateLimitOk st t).1 = true →
      (rateLimitOk st t).2 = pruneWindow st t ++ [t]) := by
  have hcount := runAdmits_count times [] hwin (by simp)
  have hlen1 := runAdmits_length times []
  have hcb := count_bool (runAdmits times []).1
  have hceil : MAX_REVIEWS_PER_HOUR = 5 := rfl
  refine ⟨⟨?_, ?_⟩, ?_, ?_⟩
  · rw [hcount, hlen]
    simp [hceil]
  · rw [hcount, hlen] at *
    simp [hceil] at *
    omega
  · intro st t h
    by_cases hc : MAX_REVIEWS_PER_HOUR ≤ (pruneWindow st t).length
    · rw [rateLimitOk_denied st t hc]
    · rw [rateLimitOk_admitted st t hc] at h
      simp at h
  · intro st t h
    by_cases hc : MAX_REVIEWS_PER_HOUR ≤ (pruneWindow st t).length
    · rw [rateLimitOk_denied st t hc] at h
      simp at h
    · rw [rateLimitOk_admitted st t hc]

/-- Witness for C4: ten instantaneous calls for one user admit exactly
five. -/
theorem rate_limiter_admits_exactly_ceiling_witness :
    ((List.replicate 10 (0 : Int)).length = 2 * MAX_REVIEWS_PER_HOUR ∧
      (∀ a ∈ List.replicate 10 (0 : Int), ∀ b ∈ List.replicate 10 (0 : Int),
        a - b < 3600)) ∧
    (runAdmits (List.replicate 10 (0 : Int)) []).1.count true =
      MAX_REVIEWS_PER_HOUR :=
  ⟨⟨by decide, by decide⟩,
    (rate_limiter_admits_exactly_ceiling (List.replicate 10 0) (by decide)
      (by decide)).1.1⟩

/-! Lemmas about pruning within one batch (all checks of a batch read
the same clock value). -/

lemma prune_idem (ts : List Int) (now : Int) :
    pruneWindow (pruneWindow ts now) now = pruneWindow ts now := by
  apply pruneWindow_of_window
  intro s hs
  have := List.of_mem_filter hs
  simp only [decide_eq_true_eq] at this
  omega

lemma prune_append_now (ts : List Int) (now : Int) :
    pruneWindow (ts ++ [now]) now = pruneWindow ts now ++ [now] := by
  unfold pruneWindow
  rw [List.filter_append]
  congr 1
  have : now - 3600 < now := by omega
  simp [this]

/-- C5: submitting a batch of 3 committed drafts when the user's
remaining allowance is 2 (the pruned record already holds 3 of the 5
admissible timestamps) runs one admission check per draft (3 checks),
creates exactly the two pending context entries of the first two
drafts, reports the rate-limit hit with 2 successes, and clears the
session. -/
theorem do_submit_stops_at_rate_limit (uid : Nat) (now : Int)
    (d0 d1 d2 : Draft) (sess : Session) (rl : List Int)
    (hdrafts : sess.drafts = [d0, d1, d2])
    (hids : d0.id ≠ d1.id)
    (hrl : (pruneWindow rl now).length = 3) :
    doSubmit uid now sess rl [] =
      { ctxs := [(CtxKey.pending d0.id, pendingPayloadOf d0 uid),
                 (CtxKey.pending d1.id, pendingPayloadOf d1 uid)],
        rl := pruneWindow rl now ++ [now] ++ [now],
        submitted := 2, checks := 3, limitReport := some 2,
        sessionAfter := none, state := ConvState.ended } := by
  have h1 : rateLimitOk rl now = (true, pruneWindow rl now ++ [now]) :=
    rateLimitOk_admitted rl now (by rw [hrl]; decide)
  have hp1 : pruneWindow (pruneWindow rl now ++ [now]) now =
      pruneWindow rl now ++ [now] := by
    rw [prune_append_now, prune_idem]
  have h2 : rateLimitOk (pruneWindow rl now ++ [now]) now =
      (true, pruneWindow rl now ++ [now] ++ [now]) := by
    have hl : (pruneWindow (pruneWindow rl now ++ [now]) now).length = 4 := by
      rw [hp1]; simp [hrl]
    rw [rateLimitOk_admitted _ _ (by rw [hl]; decide), hp1]
  have hp2 : pruneWindow (pruneWindow rl now ++ [now] ++ [now]) now =
      pruneWindow rl now ++ [now] ++ [now] := by
    rw [prune_append_now, hp1]
  have h3 : rateLimitOk (pruneWindow rl now ++ [now] ++ [now]) now =
      (false, pruneWindow rl now ++ [now] ++ [now]) := by
    apply rateLimitOk_denied
    rw [hp2]
    simp [hrl, MAX_REVIEWS_PER_HOUR]
  have hkey : ¬ (CtxKey.pending d1.id = CtxKey.pending d0.id) := by
    simp [Ne.symm hids]
  have hne : sess.drafts ≠ [] := by rw [hdrafts]; simp
  simp only [doSubmit, if_neg hne, hdrafts]
  simp only [submitLoop, h1, h2, h3, setCtx, hkey]
  simp

/-- Witness for C5 at concrete drafts, session and rate record. -/
theorem do_submit_stops_at_rate_limit_witness :
    (wSession.drafts = [wDraft0, wDraft1, wDraft2] ∧
      wDraft0.id ≠ wDraft1.id ∧
      (pruneWindow [0, 0, 0] 0).length = 3) ∧
    doSubmit 1 0 wSession [0, 0, 0] [] =
      { ctxs := [(CtxKey.pending wDraft0.id, pendingPayloadOf wDraft0 1),
                 (CtxKey.pending wDraft1.id, pendingPayloadOf wDraft1 1)],
        rl := pruneWindow [0, 0, 0] 0 ++ [0] ++ [0],
        submitted := 2, checks := 3, limitReport := some 2,
        sessionAfter := none, state := ConvState.ended } :=
  ⟨⟨by decide, by decide, by decide⟩,
    do_submit_stops_at_rate_limit 1 0 wDraft0 wDraft1 wDraft2 wSession [0, 0, 0]
      (by decide) (by decide) (by decide)⟩

/-- C6: a body whose stripped length is under 30 characters is rejected
with the too-short notice and ST_CONTENT is re-entered; the session,
the violation count, the banned set and both durable stores are left
exactly as they were, whatever the content filter would say. -/
theorem handler_content_short_reprompts (text : String) (uid : Nat)
    (sess : Session) (viol : Nat) (bannedSet : List Nat) (rl : List Int)
    (ctxs : List (CtxKey × CtxData)) (now : Int)
    (hshort : (pyStrip text).length < 30) :
    handlerContent text uid sess viol bannedSet rl ctxs now =
      some { state := ConvState.stContent, sessionAfter := some sess,
             violations := viol, banned := bannedSet, rl := rl, ctxs := ctxs,
             reply := Reply.tooShort } := by
  simp [handlerContent, hshort]

/-- Witness for C6 at a concrete short input. -/
theorem handler_content_short_reprompts_witness :
    (pyStrip "  too short  ").length < 30 ∧
    handlerContent "  too short  " 1 wSession 0 [] [] [] 0 =
      some { state := ConvState.stContent, sessionAfter := some wSession,
             violations := 0, banned := [], rl := [], ctxs := [],
             reply := Reply.tooShort } :=
  ⟨by decide, handler_content_short_reprompts "  too short  " 1 wSession 0 [] [] [] 0
    (by decide)⟩

/-- C7: a body of stripped length at least 30 that the filter flags
increments the stored violation count by one; when the new count
reaches the strike ceiling (3) the user is added to the banned set,
the session is dropped and the conversation ends, otherwise ST_CONTENT
is re-entered with the strike notice and the session — in particular
the draft body — is unchanged. -/
theorem handler_content_profanity_strikes (text : String) (uid : Nat)
    (sess : Session) (viol : Nat) (bannedSet : List Nat) (rl : List Int)
    (ctxs : List (CtxKey × CtxData)) (now : Int)
    (hlen : ¬ (pyStrip text).length < 30)
    (hprof : containsProfanity (pyStrip text) = true) :
    (MAX_PROFANITY_STRIKES ≤ viol + 1 →
      handlerContent text uid sess viol bannedSet rl ctxs now =
        some { state := ConvState.ended, sessionAfter := none,
               violations := viol + 1, banned := uid :: bannedSet, rl := rl,
               ctxs := ctxs, reply := Reply.profanityBanned }) ∧
    (viol + 1 < MAX_PROFANITY_STRIKES →
      handlerContent text uid sess viol bannedSet rl ctxs now =
        some { state := ConvState.stContent, sessionAfter := some sess,
               violations := viol + 1, banned := bannedSet, rl := rl,
               ctxs := ctxs, reply := Reply.profanityWarn (viol + 1) }) := by
  constructor
  · intro hge
    simp [handlerContent, hlen, hprof, hge]
  · intro hlt
    simp [handlerContent, hlen, hprof, Nat.not_le.mpr hlt]

/-- Witness for C7: a first strike on a long profane body warns without
banning, and a third strike bans. -/
theorem handler_content_profanity_strikes_witness :
    (¬ (pyStrip wBody).length < 30 ∧ containsProfanity (pyStrip wBody) = true) ∧
    handlerContent wBody 1 wSession 0 [] [] [] 0 =
      some { state := ConvState.stContent, sessionAfter := some wSession,
             violations := 1, banned := [], rl := [], ctxs := [],
             reply := Reply.profanityWarn 1 } ∧
    handlerContent wBody 1 wSession 2 [] [] [] 0 =
      some { state := ConvState.ended, sessionAfter := none,
             violations := 3, banned := [1], rl := [], ctxs := [],
             reply := Reply.profanityBanned } :=
  ⟨⟨by decide, by decide⟩,
    (handler_content_profanity_strikes wBody 1 wSession 0 [] [] [] 0
      (by decide) (by decide)).2 (by decide),
    (handler_content_profanity_strikes wBody 1 wSession 2 [] [] [] 0
      (by decide) (by decide)).1 (by decide)⟩

/-- C8: a body whose stripped length is at least 30 and whose tokens
include a word of the profanity set is flagged by `contains_profanity`,
and the handler routes it to a profanity rejection (a warn or a ban),
with no upper bound on the length of the input. -/
theorem content_filter_rejects_forbidden_token (text : String) (uid : Nat)
    (sess : Session) (viol : Nat) (bannedSet : List Nat) (rl : List Int)
    (ctxs : List (CtxKey × CtxData)) (now : Int) (w : String)
    (hlen : ¬ (pyStrip text).length < 30)
    (hw : w ∈ wordsOf (pyLower (pyStrip text)))
    (hset : w ∈ PROFANITY_SET) :
    containsProfanity (pyStrip text) = true ∧
    ∃ r, handlerContent text uid sess viol bannedSet rl ctxs now = some r ∧
      (r.reply = Reply.profanityBanned ∨ r.reply = Reply.profanityWarn (viol + 1)) := by
  have hprof : containsProfanity (pyStrip text) = true := by
    unfold containsProfanity
    rw [List.any_eq_true]
    exact ⟨w, hw, by simp [hset]⟩
  refine ⟨hprof, ?_⟩
  by_cases hge : MAX_PROFANITY_STRIKES ≤ viol + 1
  · refine ⟨ContentResult.mk ConvState.ended none (viol + 1) (uid :: bannedSet)
        rl ctxs Reply.profanityBanned, ?_, Or.inl rfl⟩
    simp [handlerContent, hlen, hprof, hge]
  · refine ⟨ContentResult.mk ConvState.stContent (some sess) (viol + 1) bannedSet
        rl ctxs (Reply.profanityWarn (viol + 1)), ?_, Or.inr rfl⟩
    simp [handlerContent, hlen, hprof, hge]

/-- Witness for C8: the token "stupid" inside a 53-character body. -/
theorem content_filter_rejects_forbidden_token_witness :
    (¬ (pyStrip wBody).length < 30 ∧
      "stupid" ∈ wordsOf (pyLower (pyStrip wBody)) ∧
      "stupid" ∈ PROFANITY_SET) ∧
    (containsProfanity (pyStrip wBody) = true ∧
      ∃ r, handlerContent wBody 2 wSession 0 [] [] [] 0 = some r ∧
        (r.reply = Reply.profanityBanned ∨ r.reply = Reply.profanityWarn 1)) :=
  ⟨⟨by decide, by decide, by decide⟩,
    content_filter_rejects_forbidden_token wBody 2 wSession 0 [] [] [] 0 "stupid"
      (by decide) (by decide) (by decide)⟩

/-- C10: the length check runs before the content filter, so a stripped
body under 30 characters never touches the violation counter or the
banned set even when it contains forbidden tokens — ST_CONTENT is
simply re-entered. -/
theorem handler_content_short_never_strikes (text : String) (uid : Nat)
    (sess : Session) (viol : Nat) (bannedSet : List Nat) (rl : List Int)
    (ctxs : List (CtxKey × CtxData)) (now : Int)
    (hshort : (pyStrip text).length < 30)
    (_hprof : containsProfanity (pyStrip text) = true) :
    ∃ r, handlerContent text uid sess viol bannedSet rl ctxs now = some r ∧
      r.violations = viol ∧ r.banned = bannedSet ∧
      r.state = ConvState.stContent ∧ r.sessionAfter = some sess := by
  refine ⟨ContentResult.mk ConvState.stContent (some sess) viol bannedSet rl
      ctxs Reply.tooShort, ?_, rfl, rfl, rfl, rfl⟩
  simp [handlerContent, hshort]

/-- Witness for C10: a short profane input strikes nobody. -/
theorem handler_content_short_never_strikes_witness :
    ((pyStrip "idiot").length < 30 ∧ containsProfanity (pyStrip "idiot") = true) ∧
    (∃ r, handlerContent "idiot" 3 wSession 1 [] [] [] 0 = some r ∧
      r.violations = 1 ∧ r.banned = [] ∧
      r.state = ConvState.stContent ∧ r.sessionAfter = some wSession) :=
  ⟨⟨by decide, by decide⟩,
    handler_content_short_never_strikes "idiot" 3 wSession 1 [] [] [] 0
      (by decide) (by decide)⟩

/-! Lemmas about the context store. -/

lemma getCtx_setCtx_self (ctxs : List (CtxKey × CtxData)) (k : CtxKey)
    (v : CtxData) : getCtx (setCtx ctxs k v) k = some v := by
  induction ctxs with
  | nil => simp [setCtx, getCtx]
  | cons hd tl ih =>
    obtain ⟨k0, v0⟩ := hd
    by_cases hk : k = k0
    · subst hk; simp [setCtx, getCtx]
    · simp [setCtx, getCtx, hk, ih]

/-- C9: on approval, a pending draft that carries a thread parent id
posts as a reply to that parent and stores the same parent in the fresh
resume entry; a pending draft without a parent stores the newly
published message's own id; and one full follow-up cycle (seed a draft
from a resume entry with parent A, submit it, approve it) records
parent A again, so the parent is a fixed point under arbitrarily many
follow-up cycles. -/
theorem approve_thread_linkage (ctxs : List (CtxKey × CtxData))
    (reviews : List Review) (members : List Nat)
    (userId revId sent tok : Nat) (now : Int)
    (s y sub t : String) (rating : Nat) (content : String) :
    (∀ p isAdd pu, p ≠ 0 →
      getCtx ctxs (CtxKey.pending revId) =
        some (CtxData.pendingData s y sub t rating content (some p) isAdd pu) →
      ∃ out, approve ctxs reviews members userId revId sent tok now = some out ∧
        out.replyTo = some p ∧
        getCtx out.ctxs (CtxKey.resume tok) =
          some (CtxData.resumeData s y sub t p)) ∧
    (∀ isAdd pu,
      getCtx ctxs (CtxKey.pending revId) =
        some (CtxData.pendingData s y sub t rating content none isAdd pu) →
      ∃ out, approve ctxs reviews members userId revId sent tok now = some out ∧
        out.replyTo = none ∧
        getCtx out.ctxs (CtxKey.resume tok) =
          some (CtxData.resumeData s y sub t sent)) ∧
    (∀ a : Nat, a ≠ 0 → ∀ nid uid : Nat,
      (seedDraftFromResume nid (CtxData.resumeData s y sub t a)).parentMsgId =
        some a ∧
      (seedDraftFromResume nid (CtxData.resumeData s y sub t a)).isAdditional =
        true ∧
      followupParentStep a s y sub t nid uid sent tok now = some a ∧
      ∀ n : Nat,
        (fun x => (followupParentStep x s y sub t nid uid sent tok now).getD 0)^[n]
          a = a) := by
  refine ⟨?_, ?_, ?_⟩
  · intro p isAdd pu hp hget
    have happ : approve ctxs reviews members userId revId sent tok now =
        some (ApproveOutcome.mk
          (setCtx ctxs (CtxKey.resume tok) (CtxData.resumeData s y sub t p))
          (reviews ++ [Review.mk t sub s y rating content now sent])
          (members ++ [userId]) (some p) sent tok) := by
      rw [approve.eq_def, hget]
      simp [hp]
    exact ⟨_, happ, rfl, getCtx_setCtx_self _ _ _⟩
  · intro isAdd pu hget
    have happ : approve ctxs reviews members userId revId sent tok now =
        some (ApproveOutcome.mk
          (setCtx ctxs (CtxKey.resume tok) (CtxData.resumeData s y sub t sent))
          (reviews ++ [Review.mk t sub s y rating content now sent])
          (members ++ [userId]) none sent tok) := by
      rw [approve.eq_def, hget]
    exact ⟨_, happ, rfl, getCtx_setCtx_self _ _ _⟩
  · intro a ha nid uid
    have hstep : followupParentStep a s y sub t nid uid sent tok now = some a := by
      simp [followupParentStep, seedDraftFromResume, pendingPayloadOf, approve,
        setCtx, getCtx, ha]
    refine ⟨rfl, rfl, hstep, ?_⟩
    intro n
    induction n with
    | zero => simp
    | succ k ihk =>
      rw [Function.iterate_succ_apply', ihk]
      simp [hstep]

/-- Witness for C9: approving a pending follow-up whose parent is 77
replies to 77 and records 77 again; the fixed-point cycle at 77. -/
theorem approve_thread_linkage_witness :
    ((77 : Nat) ≠ 0 ∧
      getCtx wCtxs (CtxKey.pending 5) =
        some (CtxData.pendingData "Natural" "Year 1" "Math" "Dr. Abebe Kebede" 4
          "a detailed enough body" (some 77) true 1)) ∧
    (∃ out, approve wCtxs [] [] 1 5 200 9 0 = some out ∧
      out.replyTo = some 77 ∧
      getCtx out.ctxs (CtxKey.resume 9) =
        some (CtxData.resumeData "Natural" "Year 1" "Math" "Dr. Abebe Kebede" 77)) :=
  ⟨⟨by decide, by decide⟩,
    (approve_thread_linkage wCtxs [] [] 1 5 200 9 0 "Natural" "Year 1" "Math"
      "Dr. Abebe Kebede" 4 "a detailed enough body").1 77 true 1
      (by decide) (by decide)⟩

end Bot
